import Mathlib

/-!
Verification of the FSOP container codec (`fsop_tool.py`).

The development shallowly embeds the unpacker (`FSOPUnpacker`), the packer
(`FSOPPacker`) and the index reconciler of `fsop_tool.py`:

* Python text strings are modelled as lists of Unicode code points
  (`List Nat`), byte strings as lists of byte values (`List Nat`, each < 256).
* Python slicing (which silently truncates at the end of a buffer) is
  modelled with `List.take` / `List.drop`, which saturate the same way.
* A Python exception that escapes an operation is modelled by the operation
  returning `none`.
* The text codecs of the Python standard library are modelled as follows.
  `ascii` and `latin-1` are modelled exactly.  `utf-8` is modelled exactly
  (strict RFC 3629: surrogates, overlong forms and code points above
  0x10FFFF are rejected, as Python's strict `utf-8` codec does).
  `shift-jis` is modelled exactly on its single-byte domain — ASCII
  (bytes 0x00–0x7F, code points below 0x80) and half-width katakana
  (bytes 0xA1–0xDF, code points 0xFF61–0xFF9F) — while two-byte sequences
  (lead bytes 0x81–0x9F and 0xE0–0xEF) are modelled as codec failures.
  Every concrete input evaluated in this file stays inside the single-byte
  domain, where the model agrees with Python's `shift_jis` codec; in the
  general theorems the codec functions occur only as opaque functions.
-/

/-- Python strings are modelled as lists of Unicode code points; Python byte
strings as lists of byte values. -/
abbrev PyStr := List Nat

/-- Code points that Python's `str.strip()` (no argument) removes: the
characters for which `str.isspace()` holds. -/
def pyIsSpace (c : Nat) : Bool :=
  c ∈ [9, 10, 11, 12, 13, 28, 29, 30, 31, 32, 133, 160, 0x1680,
       0x2000, 0x2001, 0x2002, 0x2003, 0x2004, 0x2005, 0x2006, 0x2007,
       0x2008, 0x2009, 0x200A, 0x2028, 0x2029, 0x202F, 0x205F, 0x3000]

/-- Python's `str.strip()`: drop whitespace from both ends. -/
def pyStrip (l : PyStr) : PyStr :=
  ((l.dropWhile pyIsSpace).reverse.dropWhile pyIsSpace).reverse

/-- The invalid Windows filename characters `< > : " / \ | ? *` replaced by
both sanitizers (code points of the Python literal `'<>:"/\\|?*'`). -/
def invalidChars : List Nat := [60, 62, 58, 34, 47, 92, 124, 63, 42]

/-- The code points of the fallback name `"unnamed"`. -/
def unnamedStr : PyStr := [117, 110, 110, 97, 109, 101, 100]

namespace FSOPUnpacker

/-- `FSOPUnpacker.xor_decrypt`: byte-wise XOR with the constant 0x9C. -/
def xor_decrypt (data : List Nat) : List Nat :=
  data.map (fun b => b ^^^ 0x9C)

/-- `FSOPUnpacker.sanitize_filename`: remove null characters, strip
surrounding whitespace, replace each invalid Windows filename character with
an underscore, and fall back to `"unnamed"` when the result is empty. -/
def sanitize_filename (name : PyStr) : PyStr :=
  let n1 := pyStrip (name.filter (fun c => c != 0))
  let n2 := invalidChars.foldl (fun acc c => acc.map (fun x => if x = c then 95 else x)) n1
  if n2 = [] then unnamedStr else n2

end FSOPUnpacker

namespace FSOPPacker

/-- `FSOPPacker.xor_encrypt`: byte-wise XOR with the constant 0x9C. -/
def xor_encrypt (data : List Nat) : List Nat :=
  data.map (fun b => b ^^^ 0x9C)

/-- `FSOPPacker.sanitize_name`: same body as `FSOPUnpacker.sanitize_filename`
(the source defines the two functions separately with identical code). -/
def sanitize_name (name : PyStr) : PyStr :=
  let n1 := pyStrip (name.filter (fun c => c != 0))
  let n2 := invalidChars.foldl (fun acc c => acc.map (fun x => if x = c then 95 else x)) n1
  if n2 = [] then unnamedStr else n2

end FSOPPacker

/-! ### Text codec models (see the module docstring for their fidelity) -/

/-- The encoding tags handled by the tool: `'ascii'`, `'shift-jis'`,
`'utf-8'`, `'latin-1'`. -/
inductive Enc where
  | ascii
  | sjis
  | utf8
  | latin1
deriving DecidableEq

/-- Python's strict `ascii` codec: encoding succeeds exactly on code points
below 0x80, and is the identity on them. -/
def asciiEncode (s : PyStr) : Option (List Nat) :=
  if s.all (fun c => c < 128) then some s else none

/-- Python's `latin-1` codec, encoding direction: succeeds exactly on code
points below 0x100, identity on them. -/
def latin1Encode (s : PyStr) : Option (List Nat) :=
  if s.all (fun c => c < 256) then some s else none

/-- Python's `latin-1` codec, decoding direction: never fails, maps each byte
to the same code point. -/
def latin1Decode (bs : List Nat) : PyStr := bs

/-- Single-byte `shift_jis` encoding of one code point: ASCII passes through,
half-width katakana U+FF61–U+FF9F maps to 0xA1–0xDF.  Code points that the
real codec represents as two-byte sequences are modelled as failures. -/
def sjisEncodeChar (c : Nat) : Option Nat :=
  if c < 128 then some c
  else if 0xFF61 ≤ c ∧ c ≤ 0xFF9F then some (0xA1 + (c - 0xFF61))
  else none

/-- Model of Python's `shift_jis` codec, encoding direction (single-byte
domain; see module docstring). -/
def sjisEncode : PyStr → Option (List Nat)
  | [] => some []
  | c :: cs =>
    match sjisEncodeChar c, sjisEncode cs with
    | some b, some bs => some (b :: bs)
    | _, _ => none

/-- Model of Python's `shift_jis` codec, decoding direction (single-byte
domain; lead bytes of two-byte sequences are modelled as failures, as are the
bytes 0x80, 0xA0 and 0xF0–0xFF on which the real codec also fails). -/
def sjisDecode : List Nat → Option PyStr
  | [] => some []
  | b :: bs =>
    if b < 128 then (sjisDecode bs).map (fun s => b :: s)
    else if 0xA1 ≤ b ∧ b ≤ 0xDF then
      (sjisDecode bs).map (fun s => (0xFF61 + (b - 0xA1)) :: s)
    else none

/-- Strict UTF-8 encoding of one code point (surrogates and code points above
0x10FFFF are rejected, as in Python's strict `utf-8` codec). -/
def utf8EncodeChar (c : Nat) : Option (List Nat) :=
  if c < 0x80 then some [c]
  else if c < 0x800 then some [0xC0 + c / 64, 0x80 + c % 64]
  else if c < 0x10000 then
    if 0xD800 ≤ c ∧ c ≤ 0xDFFF then none
    else some [0xE0 + c / 4096, 0x80 + c / 64 % 64, 0x80 + c % 64]
  else if c < 0x110000 then
    some [0xF0 + c / 262144, 0x80 + c / 4096 % 64, 0x80 + c / 64 % 64, 0x80 + c % 64]
  else none

/-- Python's strict `utf-8` codec, encoding direction. -/
def utf8Encode : PyStr → Option (List Nat)
  | [] => some []
  | c :: cs =>
    match utf8EncodeChar c, utf8Encode cs with
    | some b, some bs => some (b ++ bs)
    | _, _ => none

/-- A UTF-8 continuation byte. -/
def utf8Cont (b : Nat) : Bool := 0x80 ≤ b && b < 0xC0

/-- Python's strict `utf-8` codec, decoding direction: rejects overlong
forms, surrogates, code points above 0x10FFFF and truncated sequences. -/
def utf8Decode : List Nat → Option PyStr
  | [] => some []
  | b :: bs =>
    if b < 0x80 then (utf8Decode bs).map (fun s => b :: s)
    else if b < 0xC2 then none
    else if b < 0xE0 then
      match bs with
      | b2 :: bs2 =>
        if utf8Cont b2 then
          (utf8Decode bs2).map (fun s => ((b - 0xC0) * 64 + (b2 - 0x80)) :: s)
        else none
      | [] => none
    else if b < 0xF0 then
      match bs with
      | b2 :: b3 :: bs3 =>
        if (if b = 0xE0 then decide (0xA0 ≤ b2) && decide (b2 < 0xC0)
            else if b = 0xED then decide (0x80 ≤ b2) && decide (b2 < 0xA0)
            else utf8Cont b2) && utf8Cont b3 then
          (utf8Decode bs3).map
            (fun s => ((b - 0xE0) * 4096 + (b2 - 0x80) * 64 + (b3 - 0x80)) :: s)
        else none
      | _ => none
    else if b < 0xF5 then
      match bs with
      | b2 :: b3 :: b4 :: bs4 =>
        if (if b = 0xF0 then decide (0x90 ≤ b2) && decide (b2 < 0xC0)
            else if b = 0xF4 then decide (0x80 ≤ b2) && decide (b2 < 0x90)
            else utf8Cont b2) && utf8Cont b3 && utf8Cont b4 then
          (utf8Decode bs4).map
            (fun s =>
              ((b - 0xF0) * 262144 + (b2 - 0x80) * 4096 + (b3 - 0x80) * 64 + (b4 - 0x80)) :: s)
        else none
      | _ => none
    else none

/-- `text.encode(tag)` for the four tags. -/
def encodeWith : Enc → PyStr → Option (List Nat)
  | Enc.ascii, s => asciiEncode s
  | Enc.sjis, s => sjisEncode s
  | Enc.utf8, s => utf8Encode s
  | Enc.latin1, s => latin1Encode s

namespace FSOPPacker

/-- The tail of `FSOPPacker.detect_encoding` reached when the shift-jis
branch does not return: try `utf-8`, fall back to `latin-1`. -/
def detectTailEnc (text : PyStr) : Enc :=
  if (utf8Encode text).isSome then Enc.utf8 else Enc.latin1

/-- `FSOPPacker.detect_encoding`: pure ASCII yields the tag `'ascii'`;
otherwise shift-jis is tried (with a round-trip decode check and a length
comparison against utf-8), then utf-8, then latin-1. -/
def detect_encoding (text : PyStr) : Enc :=
  if (asciiEncode text).isSome then Enc.ascii
  else
    match sjisEncode text with
    | some es =>
      if sjisDecode es = some text then
        match utf8Encode text with
        | some eu => if eu.length ≤ es.length then Enc.utf8 else Enc.sjis
        | none => Enc.sjis
      else detectTailEnc text
    | none => detectTailEnc text

/-- The null-terminator normalization the packer applies twice (to new
reconciled entries and to every packed name):
`name if name.endswith('\x00') else name + '\x00'`. -/
def ensureNull (name : PyStr) : PyStr :=
  if name.getLast? = some 0 then name else name ++ [0]

end FSOPPacker

/-! ### The binary record layer -/

/-- `struct.pack('<I', n)`: little-endian four-byte encoding (the source only
applies it to values below 2^32; larger values make `struct.pack` raise,
which the encoders below model as failure before reaching this function). -/
def packU32 (n : Nat) : List Nat :=
  [n % 256, n / 256 % 256, n / 65536 % 256, n / 16777216 % 256]

/-- `struct.unpack('<I', b)`: requires exactly four bytes, little-endian. -/
def unpackU32 : List Nat → Option Nat
  | [a, b, c, d] => some (a + 256 * b + 65536 * c + 16777216 * d)
  | _ => none

namespace FSOPUnpacker

/-- The unpacker's name-decoding fallback chain: try shift-jis, then utf-8,
then latin-1 (which never fails). -/
def decodeNameChain (bs : List Nat) : PyStr :=
  match sjisDecode bs with
  | some s => s
  | none =>
    match utf8Decode bs with
    | some s => s
    | none => latin1Decode bs

/-- The unpacker's per-entry encoding bookkeeping: `'shift-jis'` if the
decoded name re-encodes in shift-jis, else `'utf-8'` if it re-encodes in
utf-8, else `'latin-1'`. -/
def detectEncodingOfName (nameRaw : PyStr) : Enc :=
  if (sjisEncode nameRaw).isSome then Enc.sjis
  else if (utf8Encode nameRaw).isSome then Enc.utf8
  else Enc.latin1

/-- One decoded entry as recorded by `FSOPUnpacker.unpack`: the raw decoded
name, the bookkeeping encoding tag, and the two XOR-decrypted blobs. -/
structure UnpackedShader where
  name : PyStr
  encoding : Enc
  vsData : List Nat
  psData : List Nat
deriving DecidableEq

/-- The record-decoding loop of `FSOPUnpacker.unpack`, with structural fuel.
Each iteration consumes at least the leading name-length byte, so fuel
`data.length` always suffices (`unpackGo_fuel`); the fuel-exhausted case is
unreachable from `unpackAll`.  Python slices truncate silently at the buffer
end, which `take`/`drop` mirror; `none` models `struct.error` aborting the
run when a four-byte size field cannot be filled. -/
def unpackGo : Nat → List Nat → Option (List UnpackedShader)
  | _, [] => some []
  | 0, _ :: _ => none
  | fuel + 1, nameLen :: rest =>
    match unpackU32 ((rest.drop nameLen).take 4) with
    | none => none
    | some vsSize =>
      match unpackU32 ((((rest.drop nameLen).drop 4).drop vsSize).take 4) with
      | none => none
      | some psSize =>
        match unpackGo fuel (((((rest.drop nameLen).drop 4).drop vsSize).drop 4).drop psSize) with
        | none => none
        | some tail =>
          some (⟨decodeNameChain (rest.take nameLen),
                 detectEncodingOfName (decodeNameChain (rest.take nameLen)),
                 xor_decrypt (((rest.drop nameLen).drop 4).take vsSize),
                 xor_decrypt (((((rest.drop nameLen).drop 4).drop vsSize).drop 4).take psSize)⟩
                :: tail)

/-- The pure core of `FSOPUnpacker.unpack`: walk the byte buffer from offset
0, decoding records until the buffer is exhausted. -/
def unpackAll (data : List Nat) : Option (List UnpackedShader) :=
  unpackGo data.length data

end FSOPUnpacker

namespace FSOPPacker

/-- The packer's name encoding: the entry's stored tag first, and on failure
the fallback chain shift-jis, utf-8, latin-1; `none` models the final
`latin-1` encode itself raising (which aborts the pack). -/
def encodeNameBytes (enc : Enc) (s : PyStr) : Option (List Nat) :=
  match encodeWith enc s with
  | some bs => some bs
  | none =>
    match sjisEncode s with
    | some bs => some bs
    | none =>
      match utf8Encode s with
      | some bs => some bs
      | none => latin1Encode s

/-- The per-entry record encoding of `FSOPPacker.pack` (Encode-one): ensure
the null terminator, encode the name, and emit length byte, name bytes, and
the two size-prefixed XOR-encrypted blobs.  `none` models an exception
aborting the run: an unencodable name, an encoded name longer than 255
(`bytearray.append` raises `ValueError`), or a blob too large for
`struct.pack('<I', ...)`. -/
def encodeRecord (enc : Enc) (rawName vsData psData : List Nat) : Option (List Nat) :=
  match encodeNameBytes enc (ensureNull rawName) with
  | none => none
  | some nb =>
    if 255 < nb.length then none
    else if 4294967296 ≤ vsData.length then none
    else if 4294967296 ≤ psData.length then none
    else some (nb.length :: (nb ++ (packU32 vsData.length ++ (xor_encrypt vsData ++
      (packU32 psData.length ++ xor_encrypt psData)))))

/-- One entry handed to the container writer: raw name, stored encoding tag,
and the two blob byte sequences. -/
structure EncodeItem where
  name : PyStr
  enc : Enc
  vs : List Nat
  ps : List Nat
deriving DecidableEq

/-- The container writer (Encode): encode each entry in order and concatenate
the records; `none` models an exception aborting the run. -/
def encodeAll : List EncodeItem → Option (List Nat)
  | [] => some []
  | it :: rest =>
    match encodeRecord it.enc it.name it.vs it.ps with
    | none => none
    | some bytes => (encodeAll rest).map (fun buf => bytes ++ buf)

/-- One record of `metadata.json`'s shader list; `none` fields model absent
JSON keys. -/
structure ShaderInfo where
  name : Option PyStr
  encoding : Option Enc
  vertex_shader_file : Option PyStr
  pixel_shader_file : Option PyStr
deriving DecidableEq

/-- Processing of a single metadata entry by the packing loop: `none` models
an exception aborting the pack, `some none` an entry skipped (missing
`name`, missing file fields, or missing blob files), `some (some bytes)` a
record appended to the output buffer.  The blob store `blobs` abstracts the
extraction directory (file name to file bytes, `none` when absent). -/
def packEntry (blobs : PyStr → Option (List Nat)) (si : ShaderInfo) :
    Option (Option (List Nat)) :=
  match si.name with
  | none => some none
  | some rawName =>
    match si.vertex_shader_file, si.pixel_shader_file with
    | some vf, some pf =>
      match blobs vf, blobs pf with
      | some vsData, some psData =>
        (encodeRecord (si.encoding.getD Enc.sjis) rawName vsData psData).map some
      | _, _ => some none
    | _, _ => some none

/-- The main packing loop of `FSOPPacker.pack` over the metadata entries:
returns the output buffer and the packed count, or `none` when an exception
aborts the run (in which case no output file is written). -/
def packLoop (blobs : PyStr → Option (List Nat)) : List ShaderInfo → Option (List Nat × Nat)
  | [] => some ([], 0)
  | si :: rest =>
    match packEntry blobs si with
    | none => none
    | some none => packLoop blobs rest
    | some (some bytes) => (packLoop blobs rest).map (fun p => (bytes ++ p.1, p.2 + 1))

/-- Whether the packing loop emits bytes for an entry. -/
def isPackedEntry (blobs : PyStr → Option (List Nat)) (si : ShaderInfo) : Bool :=
  match packEntry blobs si with
  | some (some _) => true
  | _ => false

/-- The `'_vs.fxc'` suffix, as code points. -/
def vsSuffix : PyStr := [95, 118, 115, 46, 102, 120, 99]

/-- The `'_ps.fxc'` suffix, as code points. -/
def psSuffixStr : PyStr := [95, 112, 115, 46, 102, 120, 99]

/-- Python's `str.endswith`. -/
def pyEndsWith (l suf : PyStr) : Bool :=
  decide (suf.length ≤ l.length) && decide (l.drop (l.length - suf.length) = suf)

/-- The set of blob files referenced by the persisted entries
(`known_files` in the source). -/
def knownFiles (shaders : List ShaderInfo) : List PyStr :=
  shaders.foldr
    (fun si acc => si.vertex_shader_file.toList ++ (si.pixel_shader_file.toList ++ acc)) []

/-- The new-shader discovery loop of `FSOPPacker.pack`: iterate the directory
listing (`allFxc` is the full listing, the first varying argument the
processed-files accumulator), pairing `<base>_vs.fxc` with `<base>_ps.fxc`
for files not yet referenced, and inferring an encoding for each new base
name.  The source iterates a Python set (unordered); the listing order is
therefore taken as a parameter. -/
def reconcileNew (allFxc known : List PyStr) : List PyStr → List PyStr → List ShaderInfo
  | _, [] => []
  | processed, f :: rest =>
    if f ∈ known ∨ f ∈ processed then reconcileNew allFxc known processed rest
    else if pyEndsWith f vsSuffix then
      if (f.take (f.length - 7) ++ psSuffixStr) ∈ allFxc ∧
          (f.take (f.length - 7) ++ psSuffixStr) ∉ known then
        ⟨some (ensureNull (f.take (f.length - 7))),
         some (detect_encoding (f.take (f.length - 7))),
         some f, some (f.take (f.length - 7) ++ psSuffixStr)⟩ ::
          reconcileNew allFxc known
            ((f.take (f.length - 7) ++ psSuffixStr) :: f :: processed) rest
      else reconcileNew allFxc known processed rest
    else reconcileNew allFxc known processed rest

/-- The reconciliation step of `FSOPPacker.pack` (Reconcile): extend the
persisted list with newly discovered pairs and report how many were
appended. -/
def reconcile (shaders : List ShaderInfo) (files : List PyStr) :
    List ShaderInfo × Nat :=
  (shaders ++ reconcileNew files (knownFiles shaders) [] files,
   (reconcileNew files (knownFiles shaders) [] files).length)

/-- `FSOPPacker.pack`: reconcile the persisted entry list against the
directory listing, then run the packing loop over the reconciled list. -/
def pack (blobs : PyStr → Option (List Nat)) (shaders : List ShaderInfo)
    (files : List PyStr) : Option (List Nat × Nat) :=
  packLoop blobs (reconcile shaders files).1

end FSOPPacker

/-- The entry the unpacker reconstructs from an encoded item: the name is
what the fallback chain makes of the encoded name bytes; the blobs come back
unchanged. -/
def decodedView (it : FSOPPacker.EncodeItem) : FSOPUnpacker.UnpackedShader :=
  ⟨FSOPUnpacker.decodeNameChain
      ((FSOPPacker.encodeNameBytes it.enc (FSOPPacker.ensureNull it.name)).getD []),
   FSOPUnpacker.detectEncodingOfName (FSOPUnpacker.decodeNameChain
      ((FSOPPacker.encodeNameBytes it.enc (FSOPPacker.ensureNull it.name)).getD [])),
   it.vs, it.ps⟩

/-! ### Helper lemmas about the sanitizers -/

theorem mem_pyStrip {c : Nat} {l : PyStr} (h : c ∈ pyStrip l) : c ∈ l := by
  unfold pyStrip at h
  rw [List.mem_reverse] at h
  have h1 := (List.dropWhile_sublist (l := (l.dropWhile pyIsSpace).reverse)
    (p := pyIsSpace)).mem h
  rw [List.mem_reverse] at h1
  exact (List.dropWhile_sublist (l := l) (p := pyIsSpace)).mem h1

theorem head?_dropWhile {p : Nat → Bool} {l : PyStr} {c : Nat}
    (h : (l.dropWhile p).head? = some c) : p c = false := by
  induction l with
  | nil => simp [List.dropWhile] at h
  | cons a t ih =>
    rw [List.dropWhile] at h
    by_cases hp : p a
    · rw [hp] at h
      exact ih h
    · simp only [Bool.not_eq_true] at hp
      rw [hp] at h
      simp only [List.head?_cons, Option.some.injEq] at h
      rw [← h]
      exact hp

theorem head?_pyStrip {l : PyStr} {c : Nat} (h : (pyStrip l).head? = some c) :
    pyIsSpace c = false := by
  unfold pyStrip at h
  rw [List.head?_reverse] at h
  have hsplit := List.takeWhile_append_dropWhile (p := pyIsSpace)
    (l := (l.dropWhile pyIsSpace).reverse)
  have hne : (l.dropWhile pyIsSpace).reverse.dropWhile pyIsSpace ≠ [] := by
    intro hnil
    rw [hnil] at h
    simp at h
  have hlast : (l.dropWhile pyIsSpace).reverse.getLast? = some c := by
    rw [← hsplit, List.getLast?_append_of_ne_nil _ hne]
    exact h
  rw [List.getLast?_reverse] at hlast
  exact head?_dropWhile hlast

theorem getLast?_pyStrip {l : PyStr} {c : Nat}
    (h : (pyStrip l).getLast? = some c) : pyIsSpace c = false := by
  unfold pyStrip at h
  rw [List.getLast?_reverse] at h
  exact head?_dropWhile h

theorem mem_foldl_replace :
    ∀ (chars : List Nat) (l : PyStr) (x : Nat),
      x ∈ List.foldl (fun acc c => acc.map (fun v => if v = c then 95 else v)) l chars →
      x = 95 ∨ x ∈ l := by
  intro chars
  induction chars with
  | nil =>
    intro l x h
    simp only [List.foldl_nil] at h
    exact Or.inr h
  | cons c cs ih =>
    intro l x h
    simp only [List.foldl_cons] at h
    rcases ih _ x h with h95 | hm
    · exact Or.inl h95
    · rw [List.mem_map] at hm
      obtain ⟨y, hy, hv⟩ := hm
      by_cases hyc : y = c
      · rw [if_pos hyc] at hv
        exact Or.inl hv.symm
      · rw [if_neg hyc] at hv
        exact Or.inr (hv ▸ hy)

theorem not_mem_foldl_replace :
    ∀ (chars : List Nat) (l : PyStr) (x : Nat), x ∈ chars → (95 : Nat) ∉ chars →
      x ∉ List.foldl (fun acc c => acc.map (fun v => if v = c then 95 else v)) l chars := by
  intro chars
  induction chars with
  | nil =>
    intro l x hx _
    simp at hx
  | cons c cs ih =>
    intro l x hx h95 hmem
    simp only [List.foldl_cons] at hmem
    rcases List.mem_cons.mp hx with hxc | hxs
    · subst hxc
      rcases mem_foldl_replace cs _ x hmem with h | h
      · exact h95 (h ▸ List.mem_cons_self _ _)
      · rw [List.mem_map] at h
        obtain ⟨y, _, hv⟩ := h
        by_cases hyc : y = x
        · rw [if_pos hyc] at hv
          exact h95 (hv ▸ List.mem_cons_self _ _)
        · rw [if_neg hyc] at hv
          exact hyc hv
    · exact ih _ x hxs (fun hm => h95 (List.mem_cons_of_mem _ hm)) hmem

theorem head?_foldl_replace :
    ∀ (chars : List Nat) (l : PyStr) (c : Nat),
      (List.foldl (fun acc c => acc.map (fun v => if v = c then 95 else v)) l chars).head?
        = some c →
      ∃ y, l.head? = some y ∧ (c = y ∨ c = 95) := by
  intro chars
  induction chars with
  | nil =>
    intro l c h
    exact ⟨c, h, Or.inl rfl⟩
  | cons c0 cs ih =>
    intro l c h
    simp only [List.foldl_cons] at h
    obtain ⟨y', hy', hc⟩ := ih _ c h
    rw [List.head?_map] at hy'
    obtain ⟨y, hy, hv⟩ := Option.map_eq_some'.mp hy'
    refine ⟨y, hy, ?_⟩
    rcases hc with rfl | rfl
    · by_cases hyc : y = c0
      · rw [if_pos hyc] at hv
        exact Or.inr hv.symm
      · rw [if_neg hyc] at hv
        exact Or.inl hv.symm
    · exact Or.inr rfl

theorem getLast?_map_eq (f : Nat → Nat) (l : List Nat) :
    (l.map f).getLast? = l.getLast?.map f := by
  rw [← List.head?_reverse, ← List.map_reverse, List.head?_map, List.head?_reverse]

theorem getLast?_foldl_replace :
    ∀ (chars : List Nat) (l : PyStr) (c : Nat),
      (List.foldl (fun acc c => acc.map (fun v => if v = c then 95 else v)) l chars).getLast?
        = some c →
      ∃ y, l.getLast? = some y ∧ (c = y ∨ c = 95) := by
  intro chars
  induction chars with
  | nil =>
    intro l c h
    exact ⟨c, h, Or.inl rfl⟩
  | cons c0 cs ih =>
    intro l c h
    simp only [List.foldl_cons] at h
    obtain ⟨y', hy', hc⟩ := ih _ c h
    rw [getLast?_map_eq] at hy'
    obtain ⟨y, hy, hv⟩ := Option.map_eq_some'.mp hy'
    refine ⟨y, hy, ?_⟩
    rcases hc with rfl | rfl
    · by_cases hyc : y = c0
      · rw [if_pos hyc] at hv
        exact Or.inr hv.symm
      · rw [if_neg hyc] at hv
        exact Or.inl hv.symm
    · exact Or.inr rfl

/-- Claim C9: `sanitize_filename` removes null characters, trims surrounding
whitespace, replaces the invalid characters with underscores, and returns
`"unnamed"` on an empty result; in particular the three concrete examples
from the specification hold. -/
theorem c9_sanitize :
    FSOPUnpacker.sanitize_filename [97, 47, 98, 58, 99] = [97, 95, 98, 95, 99] ∧
    FSOPUnpacker.sanitize_filename [] = unnamedStr ∧
    FSOPUnpacker.sanitize_filename [120, 0, 32] = [120] ∧
    (∀ s, FSOPUnpacker.sanitize_filename s ≠ []) ∧
    (∀ s, 0 ∉ FSOPUnpacker.sanitize_filename s) ∧
    (∀ s c, c ∈ invalidChars → c ∉ FSOPUnpacker.sanitize_filename s) ∧
    (∀ s c, (FSOPUnpacker.sanitize_filename s).head? = some c →
      pyIsSpace c = false) ∧
    (∀ s c, (FSOPUnpacker.sanitize_filename s).getLast? = some c →
      pyIsSpace c = false) := by
  refine ⟨by decide, by decide, by decide, ?_, ?_, ?_, ?_, ?_⟩
  · intro s
    simp only [FSOPUnpacker.sanitize_filename]
    split
    · decide
    · assumption
  · intro s hmem
    simp only [FSOPUnpacker.sanitize_filename] at hmem
    split at hmem
    · revert hmem
      decide
    · rcases mem_foldl_replace _ _ _ hmem with h | h
      · exact absurd h (by decide)
      · have := mem_pyStrip h
        rw [List.mem_filter] at this
        simpa using this.2
  · intro s c hc hmem
    simp only [FSOPUnpacker.sanitize_filename] at hmem
    split at hmem
    · simp only [invalidChars, List.mem_cons, List.not_mem_nil, or_false] at hc
      rcases hc with rfl | rfl | rfl | rfl | rfl | rfl | rfl | rfl | rfl <;>
        revert hmem <;> decide
    · exact not_mem_foldl_replace invalidChars _ c hc (by decide) hmem
  · intro s c hhead
    simp only [FSOPUnpacker.sanitize_filename] at hhead
    split at hhead
    · simp only [unnamedStr, List.head?_cons, Option.some.injEq] at hhead
      rw [← hhead]
      decide
    · obtain ⟨y, hy, hc⟩ := head?_foldl_replace _ _ _ hhead
      rcases hc with rfl | rfl
      · exact head?_pyStrip hy
      · decide
  · intro s c hlast
    simp only [FSOPUnpacker.sanitize_filename] at hlast
    split at hlast
    · simp only [unnamedStr] at hlast
      rw [List.getLast?] at hlast
      simp only [Option.some.injEq] at hlast
      rw [← hlast]
      decide
    · obtain ⟨y, hy, hc⟩ := getLast?_foldl_replace _ _ _ hlast
      rcases hc with rfl | rfl
      · exact getLast?_pyStrip hy
      · decide

/-- Witness for C9 at concrete inputs. -/
theorem c9_sanitize_witness :
    FSOPUnpacker.sanitize_filename [32, 60, 32] ≠ [] ∧
    0 ∉ FSOPUnpacker.sanitize_filename [0] ∧
    60 ∉ FSOPUnpacker.sanitize_filename [60] ∧
    pyIsSpace 97 = false :=
  ⟨c9_sanitize.2.2.2.1 [32, 60, 32],
   c9_sanitize.2.2.2.2.1 [0],
   c9_sanitize.2.2.2.2.2.1 [60] 60 (by decide),
   c9_sanitize.2.2.2.2.2.2.1 [97] 97 (by decide)⟩

/-- Claim C10: the unpacker's `sanitize_filename` and the packer's
`sanitize_name` compute the same function. -/
theorem c10_sanitizers_agree :
    ∀ s, FSOPUnpacker.sanitize_filename s = FSOPPacker.sanitize_name s :=
  fun _ => rfl

theorem xor_xor_cancel (b : Nat) : (b ^^^ 156) ^^^ 156 = b := by
  rw [Nat.xor_assoc]
  simp

theorem xor_map_involution (data : List Nat) :
    (data.map (fun b => b ^^^ 156)).map (fun b => b ^^^ 156) = data := by
  induction data with
  | nil => rfl
  | cons a t ih =>
    simp only [List.map_cons]
    rw [xor_xor_cancel, ih]

/-- Claim C8: the XOR-with-0x9C transform is an involution on byte
sequences. -/
theorem c8_xor_involution :
    ∀ (data : List Nat), (∀ b ∈ data, b < 256) →
      FSOPUnpacker.xor_decrypt (FSOPPacker.xor_encrypt data) = data ∧
      FSOPUnpacker.xor_decrypt (FSOPUnpacker.xor_decrypt data) = data :=
  fun data _ => ⟨xor_map_involution data, xor_map_involution data⟩

/-- Witness for C8 at a concrete byte sequence. -/
theorem c8_xor_involution_witness :
    (∀ b ∈ ([0, 81, 255] : List Nat), b < 256) ∧
    (FSOPUnpacker.xor_decrypt (FSOPPacker.xor_encrypt [0, 81, 255]) = [0, 81, 255] ∧
     FSOPUnpacker.xor_decrypt (FSOPUnpacker.xor_decrypt [0, 81, 255]) = [0, 81, 255]) :=
  ⟨by decide, c8_xor_involution [0, 81, 255] (by decide)⟩

/-- Claim C6 as stated is false: a name that already ends with two null
characters is left unchanged by the normalization, so the normalized name
ends with two nulls. -/
theorem c6_terminator_cex :
    FSOPPacker.ensureNull [65, 0, 0] = [65, 0, 0] ∧
    (FSOPPacker.ensureNull [65, 0, 0]).reverse.take 2 = [0, 0] := by
  decide

/-- Claim C6 (amended): the normalization appends one null when the name does
not already end with one and leaves the name unchanged otherwise, so the
result always ends with at least one null — but not with exactly one in
general. -/
theorem c6_terminator_amended :
    ∀ name : PyStr,
      (FSOPPacker.ensureNull name).getLast? = some 0 ∧
      FSOPPacker.ensureNull name =
        (if name.getLast? = some 0 then name else name ++ [0]) := by
  intro name
  refine ⟨?_, rfl⟩
  unfold FSOPPacker.ensureNull
  split
  · assumption
  · rw [List.getLast?_append_of_ne_nil _ (by simp)]
    rfl

/-- Claim C4 as stated is false: for the pure-ASCII base name `"A"` the
inferred tag is `'ascii'`, which is not one of the three recognized tags
(and in particular not the universal `'utf-8'` tag). -/
theorem c4_detect_cex :
    FSOPPacker.detect_encoding [65] = Enc.ascii ∧
    Enc.ascii ∉ [Enc.sjis, Enc.utf8, Enc.latin1] := by
  decide

/-- Claim C4 (amended): the inferred tag is `'ascii'` exactly for pure-ASCII
base names, and one of the three recognized tags (`'shift-jis'`, `'utf-8'`,
`'latin-1'`) for all other names. -/
theorem c4_detect_amended :
    ∀ text : PyStr,
      (text.all (fun c => c < 128) = true →
        FSOPPacker.detect_encoding text = Enc.ascii) ∧
      (text.all (fun c => c < 128) = false →
        FSOPPacker.detect_encoding text ∈ [Enc.sjis, Enc.utf8, Enc.latin1]) := by
  intro text
  constructor
  · intro h
    simp [FSOPPacker.detect_encoding, asciiEncode, h]
  · intro h
    have hna : ¬ ((asciiEncode text).isSome = true) := by
      simp [asciiEncode, h]
    rw [FSOPPacker.detect_encoding, if_neg hna]
    cases hsj : sjisEncode text with
    | none =>
      dsimp only
      rw [FSOPPacker.detectTailEnc]
      split <;> simp
    | some es =>
      dsimp only
      by_cases hrt : sjisDecode es = some text
      · rw [if_pos hrt]
        cases hu : utf8Encode text with
        | none => simp
        | some eu =>
          dsimp only
          split <;> simp
      · rw [if_neg hrt, FSOPPacker.detectTailEnc]
        split <;> simp

/-- Witness for C4 (amended) at a pure-ASCII name and a katakana name. -/
theorem c4_detect_witness :
    (([65] : PyStr).all (fun c => c < 128) = true ∧
      FSOPPacker.detect_encoding [65] = Enc.ascii) ∧
    (([0xFF61] : PyStr).all (fun c => c < 128) = false ∧
      FSOPPacker.detect_encoding [0xFF61] ∈ [Enc.sjis, Enc.utf8, Enc.latin1]) :=
  ⟨⟨by decide, (c4_detect_amended [65]).1 (by decide)⟩,
   ⟨by decide, (c4_detect_amended [0xFF61]).2 (by decide)⟩⟩

/-! ### Lemmas about the record layer -/

theorem unpackGo_nil (f : Nat) : FSOPUnpacker.unpackGo f [] = some [] := by
  cases f <;> rfl

theorem unpackGo_fuel :
    ∀ (f1 f2 : Nat) (data : List Nat), data.length ≤ f1 → data.length ≤ f2 →
      FSOPUnpacker.unpackGo f1 data = FSOPUnpacker.unpackGo f2 data := by
  intro f1
  induction f1 with
  | zero =>
    intro f2 data h1 _
    have hd : data = [] := List.length_eq_zero.mp (Nat.le_zero.mp h1)
    subst hd
    rw [unpackGo_nil, unpackGo_nil]
  | succ g ih =>
    intro f2 data h1 h2
    cases data with
    | nil => rw [unpackGo_nil, unpackGo_nil]
    | cons nameLen rest =>
      cases f2 with
      | zero => simp at h2
      | succ h =>
        simp only [List.length_cons, Nat.add_le_add_iff_right] at h1 h2
        simp only [FSOPUnpacker.unpackGo]
        cases unpackU32 ((rest.drop nameLen).take 4) with
        | none => rfl
        | some vsSize =>
          dsimp only
          cases unpackU32 ((((rest.drop nameLen).drop 4).drop vsSize).take 4) with
          | none => rfl
          | some psSize =>
            dsimp only
            have hr5 :
                (((((rest.drop nameLen).drop 4).drop vsSize).drop 4).drop psSize).length
                  ≤ rest.length := by
              simp only [List.length_drop]
              omega
            rw [ih h _ (le_trans hr5 h1) (le_trans hr5 h2)]

theorem length_packU32 (n : Nat) : (packU32 n).length = 4 := rfl

theorem unpackU32_packU32 {n : Nat} (h : n < 4294967296) :
    unpackU32 (packU32 n) = some n := by
  simp only [packU32, unpackU32, Option.some.injEq]
  omega

theorem unpackU32_eq_none : ∀ {l : List Nat}, l.length ≠ 4 → unpackU32 l = none := by
  intro l h
  cases l with
  | nil => rfl
  | cons a l1 =>
    cases l1 with
    | nil => rfl
    | cons b l2 =>
      cases l2 with
      | nil => rfl
      | cons c l3 =>
        cases l3 with
        | nil => rfl
        | cons d l4 =>
          cases l4 with
          | nil => simp at h
          | cons e l5 => rfl

theorem take_len_of_eq {n : Nat} (l₁ l₂ : List Nat) (h : l₁.length = n) :
    (l₁ ++ l₂).take n = l₁ := by
  subst h
  exact List.take_left l₁ l₂

theorem drop_len_of_eq {n : Nat} (l₁ l₂ : List Nat) (h : l₁.length = n) :
    (l₁ ++ l₂).drop n = l₂ := by
  subst h
  exact List.drop_left l₁ l₂

theorem xor_encrypt_length (l : List Nat) :
    (FSOPPacker.xor_encrypt l).length = l.length :=
  List.length_map l _

theorem xor_decrypt_encrypt (l : List Nat) :
    FSOPUnpacker.xor_decrypt (FSOPPacker.xor_encrypt l) = l :=
  xor_map_involution l

theorem unpackAll_cons (nb vs ps tail : List Nat)
    (hv : vs.length < 4294967296) (hp : ps.length < 4294967296) :
    FSOPUnpacker.unpackAll (nb.length :: (nb ++ (packU32 vs.length ++
        (FSOPPacker.xor_encrypt vs ++ (packU32 ps.length ++
        (FSOPPacker.xor_encrypt ps ++ tail)))))) =
      (FSOPUnpacker.unpackAll tail).map
        (fun l => ⟨FSOPUnpacker.decodeNameChain nb,
                   FSOPUnpacker.detectEncodingOfName (FSOPUnpacker.decodeNameChain nb),
                   vs, ps⟩ :: l) := by
  rw [FSOPUnpacker.unpackAll]
  simp only [List.length_cons]
  simp only [FSOPUnpacker.unpackGo]
  rw [take_len_of_eq nb _ rfl, drop_len_of_eq nb _ rfl]
  rw [take_len_of_eq (packU32 vs.length) _ (length_packU32 vs.length)]
  rw [unpackU32_packU32 hv]
  dsimp only
  rw [drop_len_of_eq (packU32 vs.length) _ (length_packU32 vs.length)]
  rw [take_len_of_eq (FSOPPacker.xor_encrypt vs) _ (xor_encrypt_length vs)]
  rw [drop_len_of_eq (FSOPPacker.xor_encrypt vs) _ (xor_encrypt_length vs)]
  rw [take_len_of_eq (packU32 ps.length) _ (length_packU32 ps.length)]
  rw [unpackU32_packU32 hp]
  dsimp only
  rw [drop_len_of_eq (packU32 ps.length) _ (length_packU32 ps.length)]
  rw [take_len_of_eq (FSOPPacker.xor_encrypt ps) _ (xor_encrypt_length ps)]
  rw [drop_len_of_eq (FSOPPacker.xor_encrypt ps) _ (xor_encrypt_length ps)]
  rw [xor_decrypt_encrypt, xor_decrypt_encrypt]
  rw [unpackGo_fuel _ tail.length tail (by simp [List.length_append]; omega) (Nat.le_refl _)]
  rw [← FSOPUnpacker.unpackAll]
  cases FSOPUnpacker.unpackAll tail <;> rfl

/-! ### ASCII names round-trip through every codec -/

theorem asciiEncode_of_ascii {s : PyStr} (h : s.all (fun c => c < 128) = true) :
    asciiEncode s = some s := by
  simp only [asciiEncode]
  rw [if_pos h]

theorem sjisEncode_of_ascii :
    ∀ {s : PyStr}, s.all (fun c => c < 128) = true → sjisEncode s = some s := by
  intro s
  induction s with
  | nil => intro _; rfl
  | cons c cs ih =>
    intro h
    simp only [List.all_cons, Bool.and_eq_true, decide_eq_true_eq] at h
    simp only [sjisEncode, sjisEncodeChar]
    rw [if_pos h.1, ih h.2]

theorem utf8Encode_of_ascii :
    ∀ {s : PyStr}, s.all (fun c => c < 128) = true → utf8Encode s = some s := by
  intro s
  induction s with
  | nil => intro _; rfl
  | cons c cs ih =>
    intro h
    simp only [List.all_cons, Bool.and_eq_true, decide_eq_true_eq] at h
    simp only [utf8Encode, utf8EncodeChar]
    rw [if_pos h.1, ih h.2]
    rfl

theorem latin1Encode_of_ascii {s : PyStr} (h : s.all (fun c => c < 128) = true) :
    latin1Encode s = some s := by
  simp only [latin1Encode]
  rw [if_pos ?_]
  rw [List.all_eq_true] at h ⊢
  intro x hx
  have := h x hx
  simp only [decide_eq_true_eq] at this ⊢
  omega

theorem encodeWith_of_ascii (enc : Enc) {s : PyStr}
    (h : s.all (fun c => c < 128) = true) : encodeWith enc s = some s := by
  cases enc
  · exact asciiEncode_of_ascii h
  · exact sjisEncode_of_ascii h
  · exact utf8Encode_of_ascii h
  · exact latin1Encode_of_ascii h

theorem encodeNameBytes_of_ascii (enc : Enc) {s : PyStr}
    (h : s.all (fun c => c < 128) = true) :
    FSOPPacker.encodeNameBytes enc s = some s := by
  simp only [FSOPPacker.encodeNameBytes]
  rw [encodeWith_of_ascii enc h]

theorem sjisDecode_of_ascii :
    ∀ {s : List Nat}, s.all (fun c => c < 128) = true → sjisDecode s = some s := by
  intro s
  induction s with
  | nil => intro _; rfl
  | cons c cs ih =>
    intro h
    simp only [List.all_cons, Bool.and_eq_true, decide_eq_true_eq] at h
    simp only [sjisDecode]
    rw [if_pos h.1, ih h.2]
    rfl

theorem decodeNameChain_of_ascii {s : List Nat}
    (h : s.all (fun c => c < 128) = true) :
    FSOPUnpacker.decodeNameChain s = s := by
  simp only [FSOPUnpacker.decodeNameChain]
  rw [sjisDecode_of_ascii h]

theorem ensureNull_ascii {name : PyStr} (h : name.all (fun c => c < 128) = true) :
    (FSOPPacker.ensureNull name).all (fun c => c < 128) = true := by
  unfold FSOPPacker.ensureNull
  split
  · exact h
  · rw [List.all_append, h]
    rfl

/-- Claim C1 as stated is false: the entry with name `'¡'` (U+00A1) and tag
`'latin-1'` encodes to the byte 0xA1, which the decoder's shift-jis-first
fallback chain reads back as the half-width katakana `'｡'` (U+FF61), so the
decoded entry's name differs from the original even after stripping null
terminators (the blobs do come back byte-identical). -/
theorem c1_roundtrip_cex :
    FSOPPacker.encodeAll [⟨[161], Enc.latin1, [], []⟩] =
      some [2, 161, 0, 0, 0, 0, 0, 0, 0, 0, 0] ∧
    FSOPUnpacker.unpackAll [2, 161, 0, 0, 0, 0, 0, 0, 0, 0, 0] =
      some [⟨[65377, 0], Enc.sjis, [], []⟩] ∧
    ([65377, 0] : PyStr) ≠ [161, 0] ∧
    List.filter (fun c => c != 0) [65377, 0] ≠ List.filter (fun c => c != 0) [161] := by
  refine ⟨by decide, by decide, by decide, by decide⟩

/-- Claim C1 (amended): for every entry list the writer accepts, decoding the
written buffer yields the same number of entries in the same order with
byte-identical vertex and pixel blobs; each decoded name is what the
shift-jis/utf-8/latin-1 fallback chain makes of the encoded name bytes, which
recovers the original name (up to the appended null terminator) for every
pure-ASCII name — but not in general. -/
theorem c1_roundtrip_amended :
    ∀ (items : List FSOPPacker.EncodeItem) (buf : List Nat),
      FSOPPacker.encodeAll items = some buf →
      FSOPUnpacker.unpackAll buf = some (items.map decodedView) ∧
      ∀ it ∈ items, it.name.all (fun c => c < 128) = true →
        (decodedView it).name = FSOPPacker.ensureNull it.name := by
  intro items
  induction items with
  | nil =>
    intro buf h
    simp only [FSOPPacker.encodeAll, Option.some.injEq] at h
    subst h
    exact ⟨rfl, by intro it hit; simp at hit⟩
  | cons it rest ih =>
    intro buf h
    simp only [FSOPPacker.encodeAll] at h
    cases hrec : FSOPPacker.encodeRecord it.enc it.name it.vs it.ps with
    | none => rw [hrec] at h; cases h
    | some bytes =>
      rw [hrec] at h
      cases hrest : FSOPPacker.encodeAll rest with
      | none => rw [hrest] at h; cases h
      | some buf' =>
        rw [hrest] at h
        simp only [Option.map_some', Option.some.injEq] at h
        subst h
        obtain ⟨hdec, hascii⟩ := ih buf' hrest
        simp only [FSOPPacker.encodeRecord] at hrec
        cases henc : FSOPPacker.encodeNameBytes it.enc (FSOPPacker.ensureNull it.name) with
        | none => rw [henc] at hrec; cases hrec
        | some nb =>
          rw [henc] at hrec
          dsimp only at hrec
          by_cases h255 : 255 < nb.length
          · rw [if_pos h255] at hrec; cases hrec
          · rw [if_neg h255] at hrec
            by_cases hv : 4294967296 ≤ it.vs.length
            · rw [if_pos hv] at hrec; cases hrec
            · rw [if_neg hv] at hrec
              by_cases hp : 4294967296 ≤ it.ps.length
              · rw [if_pos hp] at hrec; cases hrec
              · rw [if_neg hp] at hrec
                injection hrec with hrec
                subst hrec
                have hview : decodedView it =
                    ⟨FSOPUnpacker.decodeNameChain nb,
                     FSOPUnpacker.detectEncodingOfName (FSOPUnpacker.decodeNameChain nb),
                     it.vs, it.ps⟩ := by
                  simp [decodedView, henc]
                constructor
                · simp only [List.cons_append, List.append_assoc]
                  rw [unpackAll_cons nb it.vs it.ps buf' (by omega) (by omega), hdec]
                  simp only [Option.map_some', List.map_cons, hview]
                · intro it' hit' hasc
                  rcases List.mem_cons.mp hit' with hh | hmem
                  · subst hh
                    have hsn := ensureNull_ascii hasc
                    have heq := encodeNameBytes_of_ascii it'.enc hsn
                    simp [decodedView, heq, decodeNameChain_of_ascii hsn]
                  · exact hascii it' hmem hasc

/-- Witness for C1 (amended): a one-entry list with ASCII name `"A"` and
blobs `[1,2]` / `[3]` encodes and decodes back, blobs byte-identical and name
recovered up to the appended null. -/
theorem c1_roundtrip_witness :
    FSOPUnpacker.unpackAll [2, 65, 0, 2, 0, 0, 0, 157, 158, 1, 0, 0, 0, 159] =
      some [⟨[65, 0], Enc.sjis, [1, 2], [3]⟩] ∧
    FSOPPacker.ensureNull [65] = [65, 0] := by
  have h := c1_roundtrip_amended [⟨[65], Enc.utf8, [1, 2], [3]⟩]
    [2, 65, 0, 2, 0, 0, 0, 157, 158, 1, 0, 0, 0, 159] (by decide)
  constructor
  · rw [h.1]
    decide
  · have h2 := h.2 ⟨[65], Enc.utf8, [1, 2], [3]⟩ (by decide) (by decide)
    rw [← h2]
    decide

/-! ### How the decoder behaves on truncated buffers -/

theorem unpack_stops_short_vs_field (nameLen : Nat) (rest : List Nat)
    (h : (rest.drop nameLen).length < 4) :
    FSOPUnpacker.unpackAll (nameLen :: rest) = none := by
  rw [FSOPUnpacker.unpackAll]
  simp only [List.length_cons]
  simp only [FSOPUnpacker.unpackGo]
  rw [unpackU32_eq_none
    (show ((rest.drop nameLen).take 4).length ≠ 4 by
      rw [List.length_take]
      omega)]

theorem unpack_stops_short_ps_field (nameLen vsSize : Nat) (rest : List Nat)
    (h4 : unpackU32 ((rest.drop nameLen).take 4) = some vsSize)
    (h : ((rest.drop nameLen).drop 4).length < vsSize + 4) :
    FSOPUnpacker.unpackAll (nameLen :: rest) = none := by
  rw [FSOPUnpacker.unpackAll]
  simp only [List.length_cons]
  simp only [FSOPUnpacker.unpackGo]
  rw [h4]
  dsimp only
  rw [unpackU32_eq_none
    (show ((((rest.drop nameLen).drop 4).drop vsSize).take 4).length ≠ 4 by
      rw [List.length_take, List.length_drop]
      omega)]

theorem unpack_truncated_ps (nameBytes vsData psTrunc : List Nat) (psSize : Nat)
    (_hnb : nameBytes.length < 256) (htr : psTrunc.length < psSize)
    (hps : psSize < 4294967296) (hv : vsData.length < 4294967296) :
    FSOPUnpacker.unpackAll (nameBytes.length :: (nameBytes ++ (packU32 vsData.length ++
        (vsData ++ (packU32 psSize ++ psTrunc))))) =
      some [⟨FSOPUnpacker.decodeNameChain nameBytes,
             FSOPUnpacker.detectEncodingOfName (FSOPUnpacker.decodeNameChain nameBytes),
             FSOPUnpacker.xor_decrypt vsData, FSOPUnpacker.xor_decrypt psTrunc⟩] := by
  rw [FSOPUnpacker.unpackAll]
  simp only [List.length_cons]
  simp only [FSOPUnpacker.unpackGo]
  rw [take_len_of_eq nameBytes _ rfl, drop_len_of_eq nameBytes _ rfl]
  rw [take_len_of_eq (packU32 vsData.length) _ (length_packU32 _)]
  rw [unpackU32_packU32 hv]
  dsimp only
  rw [drop_len_of_eq (packU32 vsData.length) _ (length_packU32 _)]
  rw [take_len_of_eq vsData _ rfl, drop_len_of_eq vsData _ rfl]
  rw [take_len_of_eq (packU32 psSize) _ (length_packU32 _)]
  rw [unpackU32_packU32 hps]
  dsimp only
  rw [drop_len_of_eq (packU32 psSize) _ (length_packU32 _)]
  rw [List.take_of_length_le (Nat.le_of_lt htr), List.drop_eq_nil_of_le (Nat.le_of_lt htr)]
  rw [unpackGo_nil]

/-- Claim C2 as stated is false: the buffer below declares a pixel blob of 5
bytes but only 1 byte remains (11 bytes total where the record lengths sum to
15), yet decode completes normally with the pixel blob truncated to one byte
instead of aborting. -/
theorem c2_malformed_cex :
    FSOPUnpacker.unpackAll [1, 65, 0, 0, 0, 0, 5, 0, 0, 0, 170] =
      some [⟨[65], Enc.sjis, [], [54]⟩] ∧
    ([1, 65, 0, 0, 0, 0, 5, 0, 0, 0, 170] : List Nat).length = 11 ∧
    1 + 1 + 4 + 0 + 4 + 5 = (15 : Nat) := by
  refine ⟨by decide, by decide, by decide⟩

/-- Claim C2 (amended): a truncated or overrunning buffer aborts the decode
with an error whenever a four-byte vertex- or pixel-size field cannot be
filled — which covers every name-length and vertex-size overrun — but a
pixel-size field that overruns the end of the buffer does not abort: the
decode completes normally with the pixel blob silently truncated to the
remaining bytes. -/
theorem c2_malformed_amended :
    (∀ (nameLen : Nat) (rest : List Nat), (rest.drop nameLen).length < 4 →
        FSOPUnpacker.unpackAll (nameLen :: rest) = none) ∧
    (∀ (nameLen vsSize : Nat) (rest : List Nat),
        unpackU32 ((rest.drop nameLen).take 4) = some vsSize →
        ((rest.drop nameLen).drop 4).length < vsSize + 4 →
        FSOPUnpacker.unpackAll (nameLen :: rest) = none) ∧
    (∀ (nameBytes vsData psTrunc : List Nat) (psSize : Nat),
        nameBytes.length < 256 → psTrunc.length < psSize →
        psSize < 4294967296 → vsData.length < 4294967296 →
        FSOPUnpacker.unpackAll (nameBytes.length :: (nameBytes ++ (packU32 vsData.length ++
            (vsData ++ (packU32 psSize ++ psTrunc))))) =
          some [⟨FSOPUnpacker.decodeNameChain nameBytes,
                 FSOPUnpacker.detectEncodingOfName (FSOPUnpacker.decodeNameChain nameBytes),
                 FSOPUnpacker.xor_decrypt vsData, FSOPUnpacker.xor_decrypt psTrunc⟩]) :=
  ⟨unpack_stops_short_vs_field, unpack_stops_short_ps_field, unpack_truncated_ps⟩

/-- Witness for C2 (amended) at three concrete buffers. -/
theorem c2_malformed_witness :
    FSOPUnpacker.unpackAll [1, 65] = none ∧
    FSOPUnpacker.unpackAll [0, 2, 0, 0, 0, 170, 99] = none ∧
    FSOPUnpacker.unpackAll [1, 66, 1, 0, 0, 0, 7, 1, 0, 0, 0] =
      some [⟨[66], Enc.sjis, [155], []⟩] := by
  refine ⟨c2_malformed_amended.1 1 [65] (by decide),
    c2_malformed_amended.2.1 0 2 [2, 0, 0, 0, 170, 99] (by decide) (by decide), ?_⟩
  have h := c2_malformed_amended.2.2 [66] [7] [] 1 (by decide) (by decide)
    (by decide) (by decide)
  have hb : ([1, 66, 1, 0, 0, 0, 7, 1, 0, 0, 0] : List Nat) =
      ([66] : List Nat).length :: ([66] ++ (packU32 ([7] : List Nat).length ++
        ([7] ++ (packU32 1 ++ ([] : List Nat))))) := by decide
  rw [hb, h]
  decide

/-! ### The packing loop: fatal name overflow, per-entry skips, counts -/

theorem packEntry_none_of_too_long
    (blobs : PyStr → Option (List Nat)) (si : FSOPPacker.ShaderInfo)
    {rawName vf pf : PyStr} {vsData psData nb : List Nat}
    (hname : si.name = some rawName)
    (hvf : si.vertex_shader_file = some vf)
    (hpf : si.pixel_shader_file = some pf)
    (hbv : blobs vf = some vsData)
    (hbp : blobs pf = some psData)
    (henc : FSOPPacker.encodeNameBytes (si.encoding.getD Enc.sjis)
      (FSOPPacker.ensureNull rawName) = some nb)
    (hlen : 255 < nb.length) :
    FSOPPacker.packEntry blobs si = none := by
  simp only [FSOPPacker.packEntry, hname, hvf, hpf, hbv, hbp]
  simp only [FSOPPacker.encodeRecord, henc]
  rw [if_pos hlen]
  rfl

theorem packLoop_none_of_entry_none (blobs : PyStr → Option (List Nat)) :
    ∀ (l : List FSOPPacker.ShaderInfo) (si : FSOPPacker.ShaderInfo),
      si ∈ l → FSOPPacker.packEntry blobs si = none →
      FSOPPacker.packLoop blobs l = none := by
  intro l
  induction l with
  | nil => intro si h _; simp at h
  | cons a t ih =>
    intro si hmem hnone
    simp only [FSOPPacker.packLoop]
    rcases List.mem_cons.mp hmem with heq | hmem'
    · rw [← heq, hnone]
    · cases hpe : FSOPPacker.packEntry blobs a with
      | none => rfl
      | some o =>
        cases o with
        | none =>
          dsimp only
          exact ih si hmem' hnone
        | some bytes =>
          dsimp only
          rw [ih si hmem' hnone]
          rfl

/-- Claim C3: an entry whose encoded (null-terminated) name exceeds 255 bytes
makes the whole pack fail (the `bytearray.append` of the length byte raises),
so no output buffer is written for the run. -/
theorem c3_name_too_long :
    ∀ (blobs : PyStr → Option (List Nat)) (shaders : List FSOPPacker.ShaderInfo)
      (files : List PyStr) (si : FSOPPacker.ShaderInfo)
      (rawName vf pf : PyStr) (vsData psData nb : List Nat),
      si ∈ shaders →
      si.name = some rawName →
      si.vertex_shader_file = some vf →
      si.pixel_shader_file = some pf →
      blobs vf = some vsData →
      blobs pf = some psData →
      FSOPPacker.encodeNameBytes (si.encoding.getD Enc.sjis)
        (FSOPPacker.ensureNull rawName) = some nb →
      255 < nb.length →
      FSOPPacker.pack blobs shaders files = none := by
  intro blobs shaders files si rawName vf pf vsData psData nb hmem hname hvf hpf hbv hbp henc hlen
  have hpe := packEntry_none_of_too_long blobs si hname hvf hpf hbv hbp henc hlen
  exact packLoop_none_of_entry_none blobs _ si (List.mem_append_left _ hmem) hpe

set_option maxRecDepth 8192 in
/-- Witness for C3: a 256-character ASCII name (257 bytes with the null)
aborts the pack of a one-entry index. -/
theorem c3_name_too_long_witness :
    FSOPPacker.pack (fun _ => some [])
      [⟨some (List.replicate 256 65), some Enc.utf8, some [97], some [98]⟩] [] = none :=
  c3_name_too_long (fun _ => some []) _ [] _ (List.replicate 256 65) [97] [98] [] []
    (List.replicate 256 65 ++ [0]) (List.mem_cons_self _ _) rfl rfl rfl rfl rfl
    (by rfl)
    (by rw [List.length_append, List.length_replicate]; decide)

theorem packEntry_skip_of_missing_blob (blobs : PyStr → Option (List Nat))
    (si : FSOPPacker.ShaderInfo) {rawName vf pf : PyStr}
    (hname : si.name = some rawName)
    (hvf : si.vertex_shader_file = some vf)
    (hpf : si.pixel_shader_file = some pf)
    (hmiss : blobs vf = none ∨ blobs pf = none) :
    FSOPPacker.packEntry blobs si = some none := by
  simp only [FSOPPacker.packEntry, hname, hvf, hpf]
  rcases hmiss with h | h
  · rw [h]
  · rw [h]
    cases blobs vf <;> rfl

theorem packLoop_append (blobs : PyStr → Option (List Nat)) :
    ∀ (l1 l2 : List FSOPPacker.ShaderInfo),
      FSOPPacker.packLoop blobs (l1 ++ l2) =
        (FSOPPacker.packLoop blobs l1).bind (fun p1 =>
          (FSOPPacker.packLoop blobs l2).map (fun p2 => (p1.1 ++ p2.1, p1.2 + p2.2))) := by
  intro l1
  induction l1 with
  | nil =>
    intro l2
    cases h2 : FSOPPacker.packLoop blobs l2 with
    | none => simp [FSOPPacker.packLoop, h2]
    | some p => simp [FSOPPacker.packLoop, h2]
  | cons a t ih =>
    intro l2
    cases hpe : FSOPPacker.packEntry blobs a with
    | none => simp [FSOPPacker.packLoop, hpe]
    | some o =>
      cases o with
      | none => simp [FSOPPacker.packLoop, hpe, ih l2]
      | some bytes =>
        simp only [List.cons_append, FSOPPacker.packLoop, List.append_eq, hpe, ih l2]
        cases FSOPPacker.packLoop blobs t with
        | none => rfl
        | some p1 =>
          cases FSOPPacker.packLoop blobs l2 with
          | none => rfl
          | some p2 =>
            simp only [Option.some_bind, Option.map_some', Option.some.injEq, Prod.mk.injEq]
            constructor
            · simp [List.append_assoc]
            · omega

theorem packLoop_isSome (blobs : PyStr → Option (List Nat)) :
    ∀ (l : List FSOPPacker.ShaderInfo),
      (∀ sj ∈ l, FSOPPacker.packEntry blobs sj ≠ none) →
      ∃ p, FSOPPacker.packLoop blobs l = some p := by
  intro l
  induction l with
  | nil => intro _; exact ⟨([], 0), rfl⟩
  | cons a t ih =>
    intro h
    obtain ⟨p, hp⟩ := ih (fun sj hm => h sj (List.mem_cons_of_mem _ hm))
    have ha := h a (List.mem_cons_self _ _)
    simp only [FSOPPacker.packLoop]
    cases hpe : FSOPPacker.packEntry blobs a with
    | none => exact absurd hpe ha
    | some o =>
      cases o with
      | none => exact ⟨p, hp⟩
      | some bytes =>
        refine ⟨(bytes ++ p.1, p.2 + 1), ?_⟩
        dsimp only
        rw [hp]
        rfl

theorem packLoop_count (blobs : PyStr → Option (List Nat)) :
    ∀ (l : List FSOPPacker.ShaderInfo) (buf : List Nat) (cnt : Nat),
      FSOPPacker.packLoop blobs l = some (buf, cnt) →
      cnt = l.countP (FSOPPacker.isPackedEntry blobs) := by
  intro l
  induction l with
  | nil =>
    intro buf cnt h
    simp only [FSOPPacker.packLoop, Option.some.injEq, Prod.mk.injEq] at h
    rw [← h.2]
    rfl
  | cons a t ih =>
    intro buf cnt h
    simp only [FSOPPacker.packLoop] at h
    rw [List.countP_cons]
    cases hpe : FSOPPacker.packEntry blobs a with
    | none => rw [hpe] at h; cases h
    | some o =>
      rw [hpe] at h
      cases o with
      | none =>
        dsimp only at h
        have hfalse : FSOPPacker.isPackedEntry blobs a = false := by
          simp [FSOPPacker.isPackedEntry, hpe]
        rw [ih buf cnt h, hfalse]
        simp
      | some bytes =>
        dsimp only at h
        cases hT : FSOPPacker.packLoop blobs t with
        | none => rw [hT] at h; cases h
        | some p =>
          rw [hT] at h
          simp only [Option.map_some', Option.some.injEq, Prod.mk.injEq] at h
          have htrue : FSOPPacker.isPackedEntry blobs a = true := by
            simp [FSOPPacker.isPackedEntry, hpe]
          have hc := ih p.1 p.2 (by rw [hT])
          rw [htrue]
          simp only [if_pos]
          omega

/-- Claim C5: an entry whose referenced vertex or pixel blob is missing is
skipped — the output buffer and packed count are exactly those of the list
without that entry — while the loop completes over the remaining entries
(assuming no other entry aborts), and the reported count is the number of
entries actually packed, strictly below the total. -/
theorem c5_missing_blob_skips :
    ∀ (blobs : PyStr → Option (List Nat)) (before after : List FSOPPacker.ShaderInfo)
      (si : FSOPPacker.ShaderInfo) (rawName vf pf : PyStr),
      si.name = some rawName →
      si.vertex_shader_file = some vf →
      si.pixel_shader_file = some pf →
      (blobs vf = none ∨ blobs pf = none) →
      (∀ sj ∈ before ++ after, FSOPPacker.packEntry blobs sj ≠ none) →
      FSOPPacker.packEntry blobs si = some none ∧
      ∃ buf cnt,
        FSOPPacker.packLoop blobs (before ++ si :: after) = some (buf, cnt) ∧
        FSOPPacker.packLoop blobs (before ++ after) = some (buf, cnt) ∧
        cnt = (before ++ after).countP (FSOPPacker.isPackedEntry blobs) ∧
        cnt < (before ++ si :: after).length := by
  intro blobs before after si rawName vf pf hname hvf hpf hmiss hok
  have hskip := packEntry_skip_of_missing_blob blobs si hname hvf hpf hmiss
  have hcons : FSOPPacker.packLoop blobs (si :: after) = FSOPPacker.packLoop blobs after := by
    simp only [FSOPPacker.packLoop, hskip]
  have heq : FSOPPacker.packLoop blobs (before ++ si :: after)
      = FSOPPacker.packLoop blobs (before ++ after) := by
    rw [packLoop_append, packLoop_append, hcons]
  obtain ⟨⟨buf, cnt⟩, hp⟩ := packLoop_isSome blobs (before ++ after) hok
  have hc : cnt = (before ++ after).countP (FSOPPacker.isPackedEntry blobs) :=
    packLoop_count blobs _ buf cnt hp
  have hle : (before ++ after).countP (FSOPPacker.isPackedEntry blobs)
      ≤ (before ++ after).length := List.countP_le_length _
  have hlen : (before ++ after).length < (before ++ si :: after).length := by
    simp only [List.length_append, List.length_cons]
    omega
  exact ⟨hskip, buf, cnt, by rw [heq]; exact hp, hp, hc, by omega⟩

/-- Witness for C5: a one-entry index whose vertex blob is absent packs to an
empty buffer with count 0 of total 1. -/
theorem c5_missing_blob_witness :
    FSOPPacker.packEntry (fun f => if f = [98] then some [5] else none)
        ⟨some [65], none, some [97], some [98]⟩ = some none ∧
    ∃ buf cnt,
      FSOPPacker.packLoop (fun f => if f = [98] then some [5] else none)
          ([] ++ ⟨some [65], none, some [97], some [98]⟩ :: []) = some (buf, cnt) ∧
      FSOPPacker.packLoop (fun f => if f = [98] then some [5] else none)
          ([] ++ []) = some (buf, cnt) ∧
      cnt = (([] ++ []) : List FSOPPacker.ShaderInfo).countP
        (FSOPPacker.isPackedEntry (fun f => if f = [98] then some [5] else none)) ∧
      cnt < (([] ++ ⟨some [65], none, some [97], some [98]⟩ :: [])
        : List FSOPPacker.ShaderInfo).length :=
  c5_missing_blob_skips (fun f => if f = [98] then some [5] else none) [] []
    ⟨some [65], none, some [97], some [98]⟩ [65] [97] [98] rfl rfl rfl
    (Or.inl (by decide)) (fun sj h => absurd h (by simp))

/-! ### The reconciler -/

theorem mem_knownFiles :
    ∀ (shaders : List FSOPPacker.ShaderInfo) (f : PyStr),
      (∃ si ∈ shaders, si.vertex_shader_file = some f ∨ si.pixel_shader_file = some f) →
      f ∈ FSOPPacker.knownFiles shaders := by
  intro shaders
  induction shaders with
  | nil =>
    intro f h
    obtain ⟨si, hm, _⟩ := h
    simp at hm
  | cons a t ih =>
    intro f h
    obtain ⟨si, hm, hor⟩ := h
    simp only [FSOPPacker.knownFiles, List.foldr_cons]
    rcases List.mem_cons.mp hm with heq | hmem
    · subst heq
      rcases hor with h1 | h1
      · apply List.mem_append_left
        rw [h1]
        simp [Option.toList]
      · apply List.mem_append_right
        apply List.mem_append_left
        rw [h1]
        simp [Option.toList]
    · apply List.mem_append_right
      apply List.mem_append_right
      exact ih f ⟨si, hmem, hor⟩

theorem reconcileNew_nil_of_known (allFxc known : List PyStr) :
    ∀ (fs processed : List PyStr), (∀ f ∈ fs, f ∈ known) →
      FSOPPacker.reconcileNew allFxc known processed fs = [] := by
  intro fs
  induction fs with
  | nil => intro processed _; rfl
  | cons f rest ih =>
    intro processed h
    simp only [FSOPPacker.reconcileNew]
    rw [if_pos (Or.inl (h f (List.mem_cons_self _ _)))]
    exact ih processed (fun g hg => h g (List.mem_cons_of_mem _ hg))

/-- Claim C7: when every available blob-file name is already referenced by
some persisted entry, reconciliation appends zero new entries and returns the
persisted list unchanged. -/
theorem c7_reconcile_noop :
    ∀ (shaders : List FSOPPacker.ShaderInfo) (files : List PyStr),
      (∀ f ∈ files, ∃ si ∈ shaders,
        si.vertex_shader_file = some f ∨ si.pixel_shader_file = some f) →
      FSOPPacker.reconcile shaders files = (shaders, 0) := by
  intro shaders files h
  have hn : FSOPPacker.reconcileNew files (FSOPPacker.knownFiles shaders) [] files = [] :=
    reconcileNew_nil_of_known files _ files [] (fun f hf => mem_knownFiles shaders f (h f hf))
  simp only [FSOPPacker.reconcile, hn]
  simp

/-- Witness for C7: an index referencing both available files reconciles to
itself with zero appended. -/
theorem c7_reconcile_noop_witness :
    FSOPPacker.reconcile [⟨some [65, 0], some Enc.sjis, some [97], some [98]⟩]
      [[97], [98]] = ([⟨some [65, 0], some Enc.sjis, some [97], some [98]⟩], 0) :=
  c7_reconcile_noop _ _ (by decide)
